import Mathlib

/-!
Verification of the webService package registry (Go, GORM + MinIO).

The development shallowly embeds the registry's core: the MinIO object-key
scheme (internal/minio client), the package/version/download data model
(internal/models), the `PackageService` operations (internal/service), and
the HTTP handler's error-to-status classification and pagination clamping
(internal/handler/package.go).

Modelling conventions:
- Go strings are `String` (or `List Char` where character-level operations
  matter); machine integers are `Nat`/`Int` (no overflow is relevant here).
- The relational store is a snapshot of the three tables as lists; GORM's
  `First`/`Find` become `List.find?`/`List.filter` in row order; soft delete
  is modelled as removal, since every query in the service excludes
  soft-deleted rows.
- The MinIO blob store is an association list from object key to content,
  plus a monotone history `written` of every key that was ever successfully
  put (used to state "references a blob that was never written").
- Each fallible external effect (blob put/delete, row insert/delete, commit)
  is driven by an explicit oracle record, so one definition covers every
  combination of success and failure the code can encounter.  Plain read
  queries are modelled as always available: their failure paths in the code
  abort with a wrapped error before any side effect.
- Cryptographic hashing (`crypto/sha256`) and JSON encoding (`encoding/json`)
  are injected as parameters of a `Codec`: every theorem below holds for an
  arbitrary codec, because the service only plumbs these values through.
- Operations that emit a sequence of externally visible effects also return
  a trace of `StorageEvent`s, in the exact order the code performs them,
  which is what the temporal claims are stated over.
-/

namespace WebService

/-! ## Go string helpers (strings.Split, strings.ReplaceAll, strings.Contains) -/

/-- Go `strings.Split(s, sep)` for a one-character separator, over the
character list of the string.  Like Go, it keeps empty fields and returns
one (empty) field for the empty string. -/
def goSplitChar (sep : Char) : List Char → List (List Char)
  | [] => [[]]
  | c :: cs =>
    if c = sep then [] :: goSplitChar sep cs
    else
      match goSplitChar sep cs with
      | [] => [[c]]
      | t :: ts => (c :: t) :: ts

/-- Go `strings.ReplaceAll(s, "/", "_")` as used by `Client.buildObjectName`:
every path separator becomes an underscore. -/
def sanitizeSep (l : List Char) : List Char :=
  l.map fun c => if c = '/' then '_' else c

/-- Prefix test on character lists (helper for the substring test below). -/
def charsHavePref : List Char → List Char → Bool
  | [], _ => true
  | _ :: _, [] => false
  | p :: ps, c :: cs => p == c && charsHavePref ps cs

/-- Substring occurrence test on character lists. -/
def goContainsChars (pat : List Char) : List Char → Bool
  | [] => pat.isEmpty
  | c :: cs => charsHavePref pat (c :: cs) || goContainsChars pat cs

/-- Go `strings.Contains(s, pat)`, used by the HTTP handlers to classify
service errors by substring. -/
def goContains (s pat : String) : Bool :=
  goContainsChars pat.toList s.toList

/-! ## Object key derivation (internal/minio, `Client.buildObjectName` and
`Client.extractPackageInfoFromObjectName`) -/

/-- `Client.buildObjectName`: the deterministic object key
`packages/<clean-name>/<clean-version>/<clean-name>-<clean-version>.pkg`,
where `clean` replaces `/` by `_` (Go:
`fmt.Sprintf("packages/%s/%s/%s-%s.pkg", cleanPackageName, cleanVersion,
cleanPackageName, cleanVersion)`). -/
def buildObjectName (packageName version : List Char) : List Char :=
  "packages".toList ++ '/' ::
    (sanitizeSep packageName ++ '/' ::
      (sanitizeSep version ++ '/' ::
        (sanitizeSep packageName ++ '-' :: (sanitizeSep version ++ ".pkg".toList))))

/-- `Client.extractPackageInfoFromObjectName`: split the key on `/`; with at
least 4 fields, the package name is field 1 and the version is field 2;
otherwise both results are empty. -/
def extractPackageInfoFromObjectName (objectName : List Char) : List Char × List Char :=
  match goSplitChar '/' objectName with
  | _ :: p1 :: p2 :: _ :: _ => (p1, p2)
  | _ => ([], [])

/-- String-level wrapper of the key builder, for the service model. -/
def buildObjectNameS (packageName version : String) : String :=
  String.mk (buildObjectName packageName.toList version.toList)

/-- Sanitization on `String`. -/
def sanitizeStr (s : String) : String :=
  String.mk (sanitizeSep s.toList)

theorem sanitizeSep_no_sep (l : List Char) : '/' ∉ sanitizeSep l := by
  intro h
  rcases List.mem_map.mp h with ⟨a, _, hfa⟩
  by_cases ha : a = '/' <;> simp [ha] at hfa

theorem goSplitChar_eq_self_of_no_sep {sep : Char} {xs : List Char}
    (h : sep ∉ xs) : goSplitChar sep xs = [xs] := by
  induction xs with
  | nil => rfl
  | cons c cs ih =>
    have hc : ¬ c = sep := fun hc => h (hc ▸ List.mem_cons_self c cs)
    have hcs : sep ∉ cs := fun hm => h (List.mem_cons_of_mem _ hm)
    simp [goSplitChar, hc, ih hcs]

theorem goSplitChar_append_sep {sep : Char} {xs ys : List Char}
    (h : sep ∉ xs) : goSplitChar sep (xs ++ sep :: ys) = xs :: goSplitChar sep ys := by
  induction xs with
  | nil => simp [goSplitChar]
  | cons c cs ih =>
    have hc : ¬ c = sep := fun hc => h (hc ▸ List.mem_cons_self c cs)
    have hcs : sep ∉ cs := fun hm => h (List.mem_cons_of_mem _ hm)
    simp only [List.cons_append, goSplitChar, if_neg hc, List.append_eq, ih hcs]

/-- The last component `<clean-name>-<clean-version>.pkg` contains no `/`. -/
theorem lastComponent_no_sep (n v : List Char) :
    '/' ∉ sanitizeSep n ++ '-' :: (sanitizeSep v ++ ".pkg".toList) := by
  intro h
  rcases List.mem_append.mp h with h1 | h2
  · exact sanitizeSep_no_sep n h1
  · rcases List.mem_cons.mp h2 with h3 | h4
    · exact absurd h3 (by decide)
    · rcases List.mem_append.mp h4 with h5 | h6
      · exact sanitizeSep_no_sep v h5
      · revert h6; decide

/-- C9: object keys are bit-exact
`packages/<sanitized-name>/<sanitized-version>/<sanitized-name>-<sanitized-version>.pkg`
(sanitization replaces the path separator by an underscore), and positional
parsing of such a key recovers the sanitized package name and version. -/
theorem c9_key_roundtrip (n v : List Char) :
    buildObjectNameS (String.mk n) (String.mk v)
      = "packages/" ++ sanitizeStr (String.mk n) ++ "/" ++ sanitizeStr (String.mk v)
          ++ "/" ++ sanitizeStr (String.mk n) ++ "-" ++ sanitizeStr (String.mk v) ++ ".pkg"
    ∧ extractPackageInfoFromObjectName (buildObjectName n v)
      = (sanitizeSep n, sanitizeSep v) := by
  constructor
  · have hmk : ∀ a b : List Char, String.mk a ++ String.mk b = String.mk (a ++ b) :=
      fun a b => rfl
    show String.mk (buildObjectName n v)
      = String.mk ['p','a','c','k','a','g','e','s','/'] ++ String.mk (sanitizeSep n)
          ++ String.mk ['/'] ++ String.mk (sanitizeSep v) ++ String.mk ['/']
          ++ String.mk (sanitizeSep n) ++ String.mk ['-'] ++ String.mk (sanitizeSep v)
          ++ String.mk ['.','p','k','g']
    simp only [hmk]
    apply congrArg
    show 'p' :: 'a' :: 'c' :: 'k' :: 'a' :: 'g' :: 'e' :: 's' :: '/' ::
        (sanitizeSep n ++ '/' :: (sanitizeSep v ++ '/' ::
          (sanitizeSep n ++ '-' :: (sanitizeSep v ++ ['.', 'p', 'k', 'g']))))
      = ['p','a','c','k','a','g','e','s','/'] ++ sanitizeSep n ++ ['/'] ++ sanitizeSep v
          ++ ['/'] ++ sanitizeSep n ++ ['-'] ++ sanitizeSep v ++ ['.','p','k','g']
    simp [List.append_assoc]
  · have hpk : '/' ∉ "packages".toList := by decide
    have h1 := @goSplitChar_append_sep '/' "packages".toList
      (sanitizeSep n ++ '/' :: (sanitizeSep v ++ '/' ::
        (sanitizeSep n ++ '-' :: (sanitizeSep v ++ ".pkg".toList)))) hpk
    have h2 := @goSplitChar_append_sep '/' (sanitizeSep n)
      (sanitizeSep v ++ '/' :: (sanitizeSep n ++ '-' :: (sanitizeSep v ++ ".pkg".toList)))
      (sanitizeSep_no_sep n)
    have h3 := @goSplitChar_append_sep '/' (sanitizeSep v)
      (sanitizeSep n ++ '-' :: (sanitizeSep v ++ ".pkg".toList))
      (sanitizeSep_no_sep v)
    have h4 := goSplitChar_eq_self_of_no_sep (lastComponent_no_sep n v)
    unfold extractPackageInfoFromObjectName buildObjectName
    rw [h1, h2, h3, h4]

/-! ## Pagination clamping (internal/handler/package.go,
`GetPackageVersions` and `SearchPackages`) -/

/-- Handler clamp: `if page < 1 { page = 1 }`. -/
def clampPage (page : Int) : Int :=
  if page < 1 then 1 else page

/-- Handler clamp: `if pageSize < 1 || pageSize > 100 { pageSize = 20 }`. -/
def clampPageSize (pageSize : Int) : Int :=
  if pageSize < 1 ∨ pageSize > 100 then 20 else pageSize

/-- C10: the HTTP layer clamps pagination before calling the service: a page
below 1 becomes 1, a page size outside 1..100 becomes the default 20, and
values already in range pass through, so the service always runs with
`page ≥ 1` and `1 ≤ page_size ≤ 100`. -/
theorem c10_pagination_clamped (page pageSize : Int) :
    1 ≤ clampPage page
    ∧ 1 ≤ clampPageSize pageSize ∧ clampPageSize pageSize ≤ 100
    ∧ (page < 1 → clampPage page = 1)
    ∧ (pageSize < 1 ∨ pageSize > 100 → clampPageSize pageSize = 20)
    ∧ (1 ≤ page → clampPage page = page)
    ∧ (1 ≤ pageSize → pageSize ≤ 100 → clampPageSize pageSize = pageSize) := by
  unfold clampPage clampPageSize
  refine ⟨?_, ?_, ?_, ?_, ?_, ?_, ?_⟩ <;> split <;> omega

theorem c10_pagination_clamped_witness :
    1 ≤ clampPage 0
    ∧ 1 ≤ clampPageSize 500 ∧ clampPageSize 500 ≤ 100
    ∧ ((0 : Int) < 1 → clampPage 0 = 1)
    ∧ ((500 : Int) < 1 ∨ (500 : Int) > 100 → clampPageSize 500 = 20)
    ∧ ((1 : Int) ≤ 0 → clampPage 0 = 0)
    ∧ ((1 : Int) ≤ 500 → (500 : Int) ≤ 100 → clampPageSize 500 = 500) :=
  c10_pagination_clamped 0 500

/-! ## Handler error classification (internal/handler/package.go) -/

/-- `PackageHandler.UploadPackageVersion`'s error mapping: substring checks
for "not found" (404), "permission denied" (403), "already exists" (409),
in that order, else 500. -/
def uploadVersionStatus (errMsg : String) : Nat :=
  if goContains errMsg "not found" then 404
  else if goContains errMsg "permission denied" then 403
  else if goContains errMsg "already exists" then 409
  else 500

/-- `PackageHandler.CreatePackage`'s error mapping: "already exists" maps to
409, anything else to 500. -/
def createPackageStatus (errMsg : String) : Nat :=
  if goContains errMsg "already exists" then 409 else 500

/-! ## Data model (internal/models) -/

/-- Row of the `packages` table (`models.Package`).  `keywords` holds the
JSON-encoded keyword list, exactly as the column does. -/
structure PackageRow where
  id : Nat
  name : String
  description : String
  author : String
  homepage : String
  repository : String
  license : String
  keywords : String
  isPrivate : Bool
  ownerID : Nat
deriving DecidableEq

/-- Row of the `package_versions` table (`models.PackageVersion`). -/
structure PackageVersionRow where
  id : Nat
  packageID : Nat
  version : String
  description : String
  changelog : String
  dependencies : String
  fileSize : Int
  fileHash : String
  minioPath : String
  downloadCount : Int
  isPrerelease : Bool
  uploaderID : Nat
deriving DecidableEq

/-- Row of the `package_downloads` table (`models.PackageDownload`). -/
structure PackageDownloadRow where
  packageVersionID : Nat
  userID : Option Nat
  ipAddress : String
  userAgent : String
deriving DecidableEq

/-- Snapshot of the metadata store.  `nextPackageID`/`nextVersionID` model
the auto-increment primary keys. -/
structure Db where
  packages : List PackageRow
  versions : List PackageVersionRow
  downloads : List PackageDownloadRow
  nextPackageID : Nat
  nextVersionID : Nat
deriving DecidableEq

/-- The MinIO bucket: current objects by key, plus the monotone history of
every key that was ever successfully written. -/
structure BlobStore where
  objects : List (String × List Nat)
  written : List String
deriving DecidableEq

/-- `Client.PutObject` via `UploadPackage`: (over)writes the key.  The newest
binding shadows any older one. -/
def putObject (bs : BlobStore) (key : String) (content : List Nat) : BlobStore :=
  { objects := (key, content) :: bs.objects, written := key :: bs.written }

/-- `Client.RemoveObject` via `DeletePackage`: removes every binding of the
key.  The write history is unaffected. -/
def deleteObject (bs : BlobStore) (key : String) : BlobStore :=
  { bs with objects := bs.objects.filter fun p => p.1 != key }

/-- `Client.GetObject` via `DownloadPackage`: the current content at a key. -/
def getObject (bs : BlobStore) (key : String) : Option (List Nat) :=
  List.lookup key bs.objects

/-- Combined state of the two stores. -/
structure RegistryState where
  db : Db
  store : BlobStore
deriving DecidableEq

/-- Injected pure encodings: `crypto/sha256` hex digests and `encoding/json`
marshalling.  The service only plumbs these values, so all theorems hold for
an arbitrary codec. -/
structure Codec where
  sha256hex : List Nat → String
  jsonStringList : List String → String
  jsonStringMap : List (String × String) → String

/-- GORM `First` on `packages` filtered by name (row order). -/
def findPackageByName (db : Db) (name : String) : Option PackageRow :=
  db.packages.find? fun p => p.name == name

/-- GORM `First` on `packages` by primary key. -/
def findPackageByID (db : Db) (pid : Nat) : Option PackageRow :=
  db.packages.find? fun p => p.id == pid

/-- GORM `First` on `package_versions` filtered by package id and version. -/
def findVersionRow (db : Db) (pid : Nat) (ver : String) : Option PackageVersionRow :=
  db.versions.find? fun r => r.packageID == pid && r.version == ver

/-- `models.CreatePackageRequest`. -/
structure CreatePackageRequest where
  name : String
  description : String
  author : String
  homepage : String
  repository : String
  license : String
  keywords : List String
  isPrivate : Bool

/-- `models.UpdatePackageRequest`: only `isPrivate` is optionally encoded
(Go `*bool`), so only there can an explicit zero value be told apart from an
omitted field. -/
structure UpdatePackageRequest where
  description : String
  author : String
  homepage : String
  repository : String
  license : String
  keywords : List String
  isPrivate : Option Bool

/-- `models.CreatePackageVersionRequest`. -/
structure CreatePackageVersionRequest where
  version : String
  description : String
  changelog : String
  dependencies : List (String × String)
  isPrerelease : Bool

/-! ## Effect traces and failure oracles -/

/-- Externally visible effects, in the order the service performs them. -/
inductive StorageEvent
  | blobPutOk (key : String)
  | blobPutFail (key : String)
  | blobDeleteAttempt (key : String)
  | dbInsertVersionOk
  | dbInsertVersionFail
  | txBegin
  | txCommit
  | txRollback
  | dbLoadVersions
  | dbDeleteDownloads
  | dbDeleteVersions
  | dbDeletePackage
deriving DecidableEq

/-- Failure oracle for `UploadPackageVersion`: outcome of the blob put, of
the metadata insert (with the error text the driver would return, e.g. a
uniqueness-constraint violation), and of the compensating blob delete. -/
structure UploadOracle where
  blobPutOk : Bool
  putErr : String
  insertOk : Bool
  insertErr : String
  compensateDeleteOk : Bool

/-- Failure oracle for `DownloadPackageVersion`: the storage fetch and the
two fire-and-forget accounting writes. -/
structure DownloadOracle where
  storageOk : Bool
  recordInsertOk : Bool
  countUpdateOk : Bool

/-- Failure oracle for `CreatePackage`'s insert. -/
structure CreateOracle where
  insertOk : Bool
  insertErr : String

/-- Failure oracle for `DeletePackage`: loading the versions, the per-key
blob deletes, the three metadata deletes, and the commit. -/
structure DeletePackageOracle where
  loadOk : Bool
  blobDeleteOk : String → Bool
  deleteDownloadsOk : Bool
  deleteVersionsOk : Bool
  deletePackageOk : Bool
  commitOk : Bool
  commitErr : String

/-- Failure oracle for `DeletePackageVersion`. -/
structure DeleteVersionOracle where
  deleteDownloadsOk : Bool
  deleteVersionOk : Bool
  commitOk : Bool
  blobDeleteOk : Bool

/-- Failure oracle for `GetDownloadURL`'s presign call. -/
structure PresignOracle where
  presignOk : Bool

/-- Model of `Client.PresignedGetObject`: an opaque URL determined by the
object key (the real call is a network request to the store). -/
def presignedURL (key : String) : String :=
  "https://minio/" ++ key

/-! ## Registry service operations (internal/service, `PackageService`) -/

/-- `PackageService.CreatePackage`: reject an existing name, else insert a
row built from the request (keywords JSON-encoded when non-empty). -/
def createPackage (co : Codec) (st : RegistryState) (ora : CreateOracle)
    (req : CreatePackageRequest) (ownerID : Nat) :
    Except String PackageRow × RegistryState :=
  match findPackageByName st.db req.name with
  | some _ => (Except.error "package name already exists", st)
  | none =>
    if ora.insertOk = false then
      (Except.error ("failed to create package: " ++ ora.insertErr), st)
    else
      let pkg : PackageRow :=
        { id := st.db.nextPackageID
          name := req.name
          description := req.description
          author := req.author
          homepage := req.homepage
          repository := req.repository
          license := req.license
          keywords := if req.keywords ≠ [] then co.jsonStringList req.keywords else ""
          isPrivate := req.isPrivate
          ownerID := ownerID }
      (Except.ok pkg,
       { st with db := { st.db with
           packages := st.db.packages ++ [pkg]
           nextPackageID := st.db.nextPackageID + 1 } })

/-- The field-by-field `updates` map of `PackageService.UpdatePackage`:
non-empty strings and non-empty keyword lists are applied, and `is_private`
is applied exactly when the request carries the pointer. -/
def applyPackageUpdates (co : Codec) (pkg : PackageRow) (req : UpdatePackageRequest) :
    PackageRow :=
  { pkg with
    description := if req.description ≠ "" then req.description else pkg.description
    author := if req.author ≠ "" then req.author else pkg.author
    homepage := if req.homepage ≠ "" then req.homepage else pkg.homepage
    repository := if req.repository ≠ "" then req.repository else pkg.repository
    license := if req.license ≠ "" then req.license else pkg.license
    isPrivate := match req.isPrivate with
      | some b => b
      | none => pkg.isPrivate
    keywords := if req.keywords ≠ [] then co.jsonStringList req.keywords else pkg.keywords }

/-- `PackageService.UpdatePackage`: find by name, check ownership, apply the
partial update to the stored row. -/
def updatePackage (co : Codec) (st : RegistryState) (packageName : String)
    (req : UpdatePackageRequest) (userID : Nat) :
    Except String PackageRow × RegistryState :=
  match findPackageByName st.db packageName with
  | none => (Except.error "package not found", st)
  | some pkg =>
    if pkg.ownerID ≠ userID then (Except.error "permission denied", st)
    else
      let pkg' := applyPackageUpdates co pkg req
      (Except.ok pkg',
       { st with db := { st.db with
           packages := st.db.packages.map fun p => if p.id = pkg.id then pkg' else p } })

/-- `PackageService.UploadPackageVersion`: find the package, check ownership,
reject an existing version, then put the blob (hashing the streamed bytes in
the same pass), and only then insert the metadata row; if the insert fails,
attempt to delete the just-written blob as compensation. -/
def uploadPackageVersion (co : Codec) (st : RegistryState) (ora : UploadOracle)
    (packageName : String) (req : CreatePackageVersionRequest)
    (fileBytes : List Nat) (uploaderID : Nat) :
    Except String PackageVersionRow × RegistryState × List StorageEvent :=
  match findPackageByName st.db packageName with
  | none => (Except.error "package not found", st, [])
  | some pkg =>
    if pkg.ownerID ≠ uploaderID then (Except.error "permission denied", st, [])
    else
      match findVersionRow st.db pkg.id req.version with
      | some _ => (Except.error "version already exists", st, [])
      | none =>
        let key := buildObjectNameS packageName req.version
        if ora.blobPutOk = false then
          (Except.error ("failed to upload package to storage: " ++ ora.putErr), st,
           [StorageEvent.blobPutFail key])
        else
          let store₁ := putObject st.store key fileBytes
          let row : PackageVersionRow :=
            { id := st.db.nextVersionID
              packageID := pkg.id
              version := req.version
              description := req.description
              changelog := req.changelog
              dependencies :=
                if req.dependencies ≠ [] then co.jsonStringMap req.dependencies else ""
              fileSize := Int.ofNat fileBytes.length
              fileHash := co.sha256hex fileBytes
              minioPath := "packages/" ++ packageName ++ "/" ++ req.version
              downloadCount := 0
              isPrerelease := req.isPrerelease
              uploaderID := uploaderID }
          if ora.insertOk then
            (Except.ok row,
             { st with
                 db := { st.db with
                   versions := st.db.versions ++ [row]
                   nextVersionID := st.db.nextVersionID + 1 }
                 store := store₁ },
             [StorageEvent.blobPutOk key, StorageEvent.dbInsertVersionOk])
          else
            let store₂ := if ora.compensateDeleteOk then deleteObject store₁ key else store₁
            (Except.error ("failed to create version record: " ++ ora.insertErr),
             { st with store := store₂ },
             [StorageEvent.blobPutOk key, StorageEvent.dbInsertVersionFail,
              StorageEvent.blobDeleteAttempt key])

/-- `PackageService.DownloadPackageVersion`: locate the version through the
package-name subquery, enforce the private-package check, fetch the blob,
then run the fire-and-forget accounting (download row insert and counter
increment); accounting failures are logged, never surfaced. -/
def downloadPackageVersion (st : RegistryState) (ora : DownloadOracle)
    (packageName version : String) (userID : Option Nat)
    (ipAddress userAgent : String) :
    Except String (List Nat × PackageVersionRow) × RegistryState :=
  match findPackageByName st.db packageName with
  | none => (Except.error "package version not found", st)
  | some pkg =>
    match findVersionRow st.db pkg.id version with
    | none => (Except.error "package version not found", st)
    | some row =>
      if pkg.isPrivate && userID.elim true (fun uid => pkg.ownerID != uid) then
        (Except.error "access denied to private package", st)
      else if ora.storageOk = false then
        (Except.error "failed to download package from storage", st)
      else
        match getObject st.store (buildObjectNameS packageName version) with
        | none => (Except.error "failed to download package from storage", st)
        | some content =>
          let db₁ :=
            if ora.recordInsertOk then
              { st.db with downloads := st.db.downloads ++
                  [{ packageVersionID := row.id, userID := userID,
                     ipAddress := ipAddress, userAgent := userAgent }] }
            else st.db
          let db₂ :=
            if ora.countUpdateOk then
              { db₁ with versions := db₁.versions.map fun r =>
                  if r.id = row.id then { r with downloadCount := r.downloadCount + 1 }
                  else r }
            else db₁
          (Except.ok (content, row), { st with db := db₂ })

/-- `PackageService.GetDownloadURL`: same lookup and visibility check as the
direct download, then a one-hour presigned URL; no accounting, no state
change. -/
def getDownloadURL (st : RegistryState) (ora : PresignOracle)
    (packageName version : String) (userID : Option Nat) : Except String String :=
  match findPackageByName st.db packageName with
  | none => Except.error "package version not found"
  | some pkg =>
    match findVersionRow st.db pkg.id version with
    | none => Except.error "package version not found"
    | some _ =>
      if pkg.isPrivate && userID.elim true (fun uid => pkg.ownerID != uid) then
        Except.error "access denied to private package"
      else if ora.presignOk then
        Except.ok (presignedURL (buildObjectNameS packageName version))
      else
        Except.error "failed to generate download URL"

/-- `PackageService.DeletePackage`: find and ownership-check the package,
begin a transaction, load its versions, best-effort delete each version's
blob (failures logged, loop continues), then delete the download rows, the
version rows and the package row, and commit.  Note the blob deletes happen
before the metadata deletes and before the commit. -/
def deletePackage (st : RegistryState) (ora : DeletePackageOracle)
    (packageName : String) (userID : Nat) :
    Except String Unit × RegistryState × List StorageEvent :=
  match findPackageByName st.db packageName with
  | none => (Except.error "package not found", st, [])
  | some pkg =>
    if pkg.ownerID ≠ userID then (Except.error "permission denied", st, [])
    else
      if ora.loadOk = false then
        (Except.error "failed to get package versions", st,
         [StorageEvent.txBegin, StorageEvent.txRollback])
      else
        let rows := st.db.versions.filter fun r => r.packageID == pkg.id
        let keys := rows.map fun r => buildObjectNameS packageName r.version
        let store₁ := keys.foldl
          (fun s k => if ora.blobDeleteOk k then deleteObject s k else s) st.store
        let evs₀ := [StorageEvent.txBegin, StorageEvent.dbLoadVersions]
          ++ keys.map StorageEvent.blobDeleteAttempt
        if ora.deleteDownloadsOk = false then
          (Except.error "failed to delete download records",
           { st with store := store₁ }, evs₀ ++ [StorageEvent.txRollback])
        else if ora.deleteVersionsOk = false then
          (Except.error "failed to delete package versions",
           { st with store := store₁ },
           evs₀ ++ [StorageEvent.dbDeleteDownloads, StorageEvent.txRollback])
        else if ora.deletePackageOk = false then
          (Except.error "failed to delete package",
           { st with store := store₁ },
           evs₀ ++ [StorageEvent.dbDeleteDownloads, StorageEvent.dbDeleteVersions,
             StorageEvent.txRollback])
        else if ora.commitOk = false then
          (Except.error ora.commitErr,
           { st with store := store₁ },
           evs₀ ++ [StorageEvent.dbDeleteDownloads, StorageEvent.dbDeleteVersions,
             StorageEvent.dbDeletePackage, StorageEvent.txCommit])
        else
          let versionIDs := rows.map fun r => r.id
          (Except.ok (),
           { st with
               db := { st.db with
                 downloads := st.db.downloads.filter fun d =>
                   !(versionIDs.contains d.packageVersionID)
                 versions := st.db.versions.filter fun r => r.packageID != pkg.id
                 packages := st.db.packages.filter fun p => p.id != pkg.id }
               store := store₁ },
           evs₀ ++ [StorageEvent.dbDeleteDownloads, StorageEvent.dbDeleteVersions,
             StorageEvent.dbDeletePackage, StorageEvent.txCommit])

/-- `PackageService.DeletePackageVersion`: find and ownership-check, then in
one transaction delete the download rows and the version row, commit, and
only after the commit best-effort delete the blob. -/
def deletePackageVersion (st : RegistryState) (ora : DeleteVersionOracle)
    (packageName version : String) (userID : Nat) :
    Except String Unit × RegistryState × List StorageEvent :=
  match findPackageByName st.db packageName with
  | none => (Except.error "package version not found", st, [])
  | some pkg =>
    match findVersionRow st.db pkg.id version with
    | none => (Except.error "package version not found", st, [])
    | some row =>
      if pkg.ownerID ≠ userID then (Except.error "permission denied", st, [])
      else
        if ora.deleteDownloadsOk = false then
          (Except.error "failed to delete download records", st,
           [StorageEvent.txBegin, StorageEvent.txRollback])
        else if ora.deleteVersionOk = false then
          (Except.error "failed to delete version", st,
           [StorageEvent.txBegin, StorageEvent.dbDeleteDownloads, StorageEvent.txRollback])
        else if ora.commitOk = false then
          (Except.error "failed to commit transaction", st,
           [StorageEvent.txBegin, StorageEvent.dbDeleteDownloads,
            StorageEvent.dbDeleteVersions, StorageEvent.txCommit])
        else
          let key := buildObjectNameS packageName version
          let store' := if ora.blobDeleteOk then deleteObject st.store key else st.store
          (Except.ok (),
           { st with
               db := { st.db with
                 downloads := st.db.downloads.filter fun d => d.packageVersionID != row.id
                 versions := st.db.versions.filter fun r => r.id != row.id }
               store := store' },
           [StorageEvent.txBegin, StorageEvent.dbDeleteDownloads,
            StorageEvent.dbDeleteVersions, StorageEvent.txCommit,
            StorageEvent.blobDeleteAttempt key])

/-! ## The service as a step system over its operations -/

/-- One invocation of a state-changing registry operation, with its failure
oracle. -/
inductive RegistryOp
  | create (ora : CreateOracle) (req : CreatePackageRequest) (ownerID : Nat)
  | update (packageName : String) (req : UpdatePackageRequest) (userID : Nat)
  | deletePkg (ora : DeletePackageOracle) (packageName : String) (userID : Nat)
  | upload (ora : UploadOracle) (packageName : String)
      (req : CreatePackageVersionRequest) (fileBytes : List Nat) (uploaderID : Nat)
  | download (ora : DownloadOracle) (packageName version : String)
      (userID : Option Nat) (ipAddress userAgent : String)
  | deleteVer (ora : DeleteVersionOracle) (packageName version : String) (userID : Nat)

/-- The state reached by running one operation (read-only operations —
`GetPackage`, `GetPackageVersions`, `SearchPackages`, `GetPackageStats`,
`GetDownloadURL` — never change the state, so they are not listed). -/
def runOp (co : Codec) (st : RegistryState) : RegistryOp → RegistryState
  | RegistryOp.create ora req oid => (createPackage co st ora req oid).2
  | RegistryOp.update n req uid => (updatePackage co st n req uid).2
  | RegistryOp.deletePkg ora n uid => (deletePackage st ora n uid).2.1
  | RegistryOp.upload ora n req bs uid => (uploadPackageVersion co st ora n req bs uid).2.1
  | RegistryOp.download ora n v uo ip ua =>
      (downloadPackageVersion st ora n v uo ip ua).2
  | RegistryOp.deleteVer ora n v uid => (deletePackageVersion st ora n v uid).2.1

/-- Whether an operation is the direct-download operation. -/
def RegistryOp.isDownload : RegistryOp → Bool
  | RegistryOp.download _ _ _ _ _ _ => true
  | _ => false

/-! ## General helper lemmas -/

theorem contains_cons_of_contains {l : List String} {a b : String}
    (h : l.contains a = true) : (b :: l).contains a = true := by
  simp only [List.contains, List.elem_iff] at *
  exact List.mem_cons_of_mem _ h

theorem contains_cons_self (a : String) (l : List String) :
    (a :: l).contains a = true := by
  simp only [List.contains, List.elem_iff]
  exact List.mem_cons_self a l

/-- `find?` keyed by an injective-on-the-list tag returns the tagged member. -/
theorem find?_tag_eq_of_nodup {α : Type} {f : α → Nat} {l : List α} {x : α}
    (huniq : (l.map f).Nodup) (hmem : x ∈ l) :
    l.find? (fun p => f p == f x) = some x := by
  induction l with
  | nil => cases hmem
  | cons a l ih =>
    rw [List.map_cons, List.nodup_cons] at huniq
    rcases List.mem_cons.mp hmem with rfl | hmem'
    · simp [List.find?_cons]
    · have hne : (f a == f x) = false := by
        refine beq_eq_false_iff_ne.mpr ?_
        intro he
        apply huniq.1
        have h2 : f x ∈ l.map f := List.mem_map_of_mem _ hmem'
        rw [he]
        exact h2
      rw [List.find?_cons, hne]
      exact ih huniq.2 hmem'

/-! ## C1: upload ordering, compensation, and the backed-rows invariant -/

/-- No metadata-insert attempt occurs in the trace before a successful blob
put. -/
def insertOnlyAfterPutOk : List StorageEvent → Bool
  | [] => true
  | StorageEvent.blobPutOk _ :: _ => true
  | StorageEvent.dbInsertVersionOk :: _ => false
  | StorageEvent.dbInsertVersionFail :: _ => false
  | _ :: rest => insertOnlyAfterPutOk rest

/-- The blob referenced by a version row (through its owning package's name)
was at some point actually written to the object store. -/
def rowBacked (st : RegistryState) (r : PackageVersionRow) : Bool :=
  match findPackageByID st.db r.packageID with
  | some p => st.store.written.contains (buildObjectNameS p.name r.version)
  | none => true

/-- Every version row references a blob that was written. -/
def rowsBacked (st : RegistryState) : Prop :=
  ∀ r ∈ st.db.versions, rowBacked st r = true

/-- Package primary keys are unique (the database guarantees this). -/
def uniquePackageIDs (db : Db) : Prop :=
  (db.packages.map fun p => p.id).Nodup

/-- A row is backed once its package is found and its key is in the write
history. -/
theorem rowBacked_of_found (st : RegistryState) (r : PackageVersionRow) (p : PackageRow)
    (hfp : findPackageByID st.db r.packageID = some p)
    (hc : st.store.written.contains (buildObjectNameS p.name r.version) = true) :
    rowBacked st r = true := by
  unfold rowBacked
  rw [hfp]
  exact hc

/-- Backing of a row is preserved whenever the package table is unchanged
and the write history only grows. -/
theorem rowBacked_mono (st st' : RegistryState) (r : PackageVersionRow)
    (hpk : st'.db.packages = st.db.packages)
    (hwr : ∀ k, st.store.written.contains k = true → st'.store.written.contains k = true)
    (h : rowBacked st r = true) : rowBacked st' r = true := by
  unfold rowBacked at h ⊢
  rw [show findPackageByID st'.db r.packageID = findPackageByID st.db r.packageID by
    unfold findPackageByID; rw [hpk]]
  cases hfp : findPackageByID st.db r.packageID with
  | none => rfl
  | some p =>
    rw [hfp] at h
    exact hwr _ h

/-- C1: in `UploadPackageVersion`, the metadata row is inserted only after
the blob write succeeded; if the insert fails, a compensating delete of the
just-written blob is attempted; consequently the invariant "every version
row's storage key refers to a blob that was written" is preserved. -/
theorem c1_upload_write_order (co : Codec) (st : RegistryState) (ora : UploadOracle)
    (packageName : String) (req : CreatePackageVersionRequest)
    (fileBytes : List Nat) (uploaderID : Nat) :
    insertOnlyAfterPutOk
        (uploadPackageVersion co st ora packageName req fileBytes uploaderID).2.2 = true
    ∧ (StorageEvent.dbInsertVersionFail
          ∈ (uploadPackageVersion co st ora packageName req fileBytes uploaderID).2.2 →
        StorageEvent.blobDeleteAttempt (buildObjectNameS packageName req.version)
          ∈ (uploadPackageVersion co st ora packageName req fileBytes uploaderID).2.2)
    ∧ (uniquePackageIDs st.db → rowsBacked st →
        rowsBacked (uploadPackageVersion co st ora packageName req fileBytes uploaderID).2.1) := by
  unfold uploadPackageVersion
  cases hfind : findPackageByName st.db packageName with
  | none => exact ⟨rfl, by intro h; simp at h, fun _ hb => hb⟩
  | some pkg =>
    by_cases howner : pkg.ownerID ≠ uploaderID
    · simp only [if_pos howner]
      exact ⟨rfl, by intro h; simp at h, fun _ hb => hb⟩
    · simp only [if_neg howner]
      cases hv : findVersionRow st.db pkg.id req.version with
      | some w => exact ⟨rfl, by intro h; simp at h, fun _ hb => hb⟩
      | none =>
        by_cases hput : ora.blobPutOk = false
        · simp only [if_pos hput]
          exact ⟨rfl, by intro h; simp at h, fun _ hb => hb⟩
        · simp only [if_neg hput]
          by_cases hins : ora.insertOk
          · simp only [if_pos hins]
            refine ⟨rfl, by intro h; simp at h, ?_⟩
            intro huniq hb r hr
            have hfind' : st.db.packages.find? (fun p => p.name == packageName) = some pkg :=
              hfind
            have hbeq : (pkg.name == packageName) = true :=
              @List.find?_some PackageRow (fun q => q.name == packageName) pkg
                st.db.packages hfind'
            have hpkgname : pkg.name = packageName := eq_of_beq hbeq
            rcases List.mem_append.mp hr with hold | hnew
            · refine rowBacked_mono st _ r ?_ ?_ (hb r hold)
              · rfl
              · intro k hk
                exact contains_cons_of_contains hk
            · rw [List.mem_singleton.mp hnew]
              have hmem : pkg ∈ st.db.packages := List.mem_of_find?_eq_some hfind'
              have huniq' : (st.db.packages.map fun p => p.id).Nodup := huniq
              have hfp0 : st.db.packages.find? (fun p => p.id == pkg.id) = some pkg :=
                find?_tag_eq_of_nodup huniq' hmem
              have hc : (putObject st.store (buildObjectNameS packageName req.version)
                    fileBytes).written.contains (buildObjectNameS pkg.name req.version)
                  = true := by
                rw [hpkgname]
                exact contains_cons_self _ _
              exact rowBacked_of_found _ _ pkg hfp0 hc
          · simp only [if_neg hins]
            refine ⟨rfl, by intro h; simp, ?_⟩
            intro huniq hb r hr
            refine rowBacked_mono st _ r ?_ ?_ (hb r hr)
            · rfl
            intro k hk
            have hwreq : (if ora.compensateDeleteOk then
                  deleteObject (putObject st.store (buildObjectNameS packageName req.version)
                    fileBytes) (buildObjectNameS packageName req.version)
                else putObject st.store (buildObjectNameS packageName req.version)
                  fileBytes).written
                = buildObjectNameS packageName req.version :: st.store.written := by
              by_cases hc : ora.compensateDeleteOk <;> simp [hc, deleteObject, putObject]
            show (if ora.compensateDeleteOk then
                deleteObject (putObject st.store (buildObjectNameS packageName req.version)
                  fileBytes) (buildObjectNameS packageName req.version)
              else putObject st.store (buildObjectNameS packageName req.version)
                fileBytes).written.contains k = true
            rw [hwreq]
            exact contains_cons_of_contains hk

/-! ## Concrete exemplar world (used by witnesses and counterexamples) -/

/-- A codec instance for concrete evaluation; the theorems hold for every
codec, so the choice is immaterial. -/
def exCodec : Codec :=
  { sha256hex := fun l => toString l.length
    jsonStringList := fun l => toString l.length
    jsonStringMap := fun l => toString l.length }

/-- A public package owned by user 7. -/
def exPkg : PackageRow :=
  { id := 1, name := "demo", description := "", author := "", homepage := ""
    repository := "", license := "", keywords := "", isPrivate := false, ownerID := 7 }

/-- State with the package and no versions. -/
def exSt : RegistryState :=
  { db := { packages := [exPkg], versions := [], downloads := []
            nextPackageID := 2, nextVersionID := 10 }
    store := { objects := [], written := [] } }

/-- A version-upload request for label 1.0.0. -/
def exReq : CreatePackageVersionRequest :=
  { version := "1.0.0", description := "", changelog := "", dependencies := []
    isPrerelease := false }

/-- All-success upload oracle. -/
def exUpOk : UploadOracle :=
  { blobPutOk := true, putErr := "", insertOk := true, insertErr := ""
    compensateDeleteOk := true }

/-- An existing stored version of the demo package. -/
def exVer : PackageVersionRow :=
  { id := 10, packageID := 1, version := "1.0.0", description := "", changelog := ""
    dependencies := "", fileSize := 3, fileHash := "3", minioPath := "packages/demo/1.0.0"
    downloadCount := 0, isPrerelease := false, uploaderID := 7 }

/-- State in which version 1.0.0 of the demo package is already stored, with
its blob present. -/
def exSt2 : RegistryState :=
  { db := { packages := [exPkg], versions := [exVer], downloads := []
            nextPackageID := 2, nextVersionID := 11 }
    store := { objects := [(buildObjectNameS "demo" "1.0.0", [1, 2, 3])]
               written := [buildObjectNameS "demo" "1.0.0"] } }

theorem c1_upload_write_order_witness :
    insertOnlyAfterPutOk
        (uploadPackageVersion exCodec exSt exUpOk "demo" exReq [1, 2, 3] 7).2.2 = true
    ∧ rowsBacked (uploadPackageVersion exCodec exSt exUpOk "demo" exReq [1, 2, 3] 7).2.1 := by
  have h := c1_upload_write_order exCodec exSt exUpOk "demo" exReq [1, 2, 3] 7
  refine ⟨h.1, h.2.2 ?_ ?_⟩
  · unfold uniquePackageIDs
    decide
  · unfold rowsBacked
    decide

/-! ## C4: re-uploading an existing version -/

/-- C4: when the (package, version) pair already has a stored version, a
second `UploadPackageVersion` by the owner fails with the error the HTTP
layer maps to 409 Conflict, the state is completely unchanged (so the
original hash, size and blob are untouched), and the trace is empty: no blob
write happened before the failure. -/
theorem c4_duplicate_version_conflict (co : Codec) (st : RegistryState)
    (ora : UploadOracle) (packageName : String) (req : CreatePackageVersionRequest)
    (fileBytes : List Nat) (uploaderID : Nat) (pkg : PackageRow) (w : PackageVersionRow)
    (hfind : findPackageByName st.db packageName = some pkg)
    (howner : pkg.ownerID = uploaderID)
    (hver : findVersionRow st.db pkg.id req.version = some w) :
    (uploadPackageVersion co st ora packageName req fileBytes uploaderID).1
        = Except.error "version already exists"
    ∧ (uploadPackageVersion co st ora packageName req fileBytes uploaderID).2.1 = st
    ∧ (uploadPackageVersion co st ora packageName req fileBytes uploaderID).2.2 = []
    ∧ findVersionRow
        (uploadPackageVersion co st ora packageName req fileBytes uploaderID).2.1.db
        pkg.id req.version = some w
    ∧ uploadVersionStatus "version already exists" = 409 := by
  have hno : ¬ pkg.ownerID ≠ uploaderID := fun hcon => hcon howner
  have hmain : uploadPackageVersion co st ora packageName req fileBytes uploaderID
      = (Except.error "version already exists", st, []) := by
    simp only [uploadPackageVersion, hfind, if_neg hno, hver]
  rw [hmain]
  exact ⟨rfl, rfl, rfl, hver, by decide⟩

theorem c4_duplicate_version_conflict_witness :
    (uploadPackageVersion exCodec exSt2 exUpOk "demo" exReq [9] 7).1
        = Except.error "version already exists"
    ∧ (uploadPackageVersion exCodec exSt2 exUpOk "demo" exReq [9] 7).2.1 = exSt2
    ∧ uploadVersionStatus "version already exists" = 409 := by
  have h := c4_duplicate_version_conflict exCodec exSt2 exUpOk "demo" exReq [9] 7 exPkg exVer
    (by decide) (by decide) (by decide)
  exact ⟨h.1, h.2.1, h.2.2.2.2⟩

/-! ## C5: a racing insert's uniqueness violation is not mapped to 409 -/

/-- The error text a MySQL driver reports for a uniqueness-constraint
violation on the `(package_id, version)` index. -/
def racingInsertErr : String :=
  "Error 1062 (23000): Duplicate entry for key package_versions.idx_package_version"

/-- Upload oracle for the race loser: the blob put succeeds, the insert
fails with the duplicate-key error. -/
def exUpRace : UploadOracle :=
  { blobPutOk := true, putErr := "", insertOk := false, insertErr := racingInsertErr
    compensateDeleteOk := true }

/-- C5: the service wraps a racing insert's uniqueness-constraint error as
"failed to create version record: ..." (and `CreatePackage` analogously as
"failed to create package: ..."), which does not contain the substring
"already exists" that the handler checks, so the HTTP layer returns 500,
not 409 Conflict.  This contradicts the claim (the code relies on substring
classification that only matches the pre-insert existence check's errors). -/
theorem c5_race_conflict_not_surfaced :
    (uploadPackageVersion exCodec exSt exUpRace "demo" exReq [1] 7).1
        = Except.error ("failed to create version record: " ++ racingInsertErr)
    ∧ uploadVersionStatus ("failed to create version record: " ++ racingInsertErr) = 500
    ∧ uploadVersionStatus ("failed to create version record: " ++ racingInsertErr) ≠ 409
    ∧ createPackageStatus
        ("failed to create package: Error 1062 (23000): Duplicate entry demo for key packages.idx_package_name")
        = 500 := by
  refine ⟨rfl, by decide, by decide, by decide⟩

/-! ## C3: private/public visibility on download and presigned URL -/

/-- C3: for a stored (package, version) whose blob is present and whose
storage/presign calls succeed: if the package is private, both
`DownloadPackageVersion` and `GetDownloadURL` succeed for the owner and fail
with the access-denied error (mapped to 403 Forbidden) for every other
caller, including the anonymous one; if the package is public, both succeed
for every caller. -/
theorem c3_private_package_visibility (st : RegistryState) (dora : DownloadOracle)
    (pora : PresignOracle) (packageName version ipAddress userAgent : String)
    (pkg : PackageRow) (row : PackageVersionRow) (content : List Nat)
    (hfind : findPackageByName st.db packageName = some pkg)
    (hver : findVersionRow st.db pkg.id version = some row)
    (hblob : getObject st.store (buildObjectNameS packageName version) = some content)
    (hsok : dora.storageOk = true) (hpok : pora.presignOk = true) :
    (pkg.isPrivate = true →
      ((downloadPackageVersion st dora packageName version (some pkg.ownerID)
            ipAddress userAgent).1 = Except.ok (content, row)
        ∧ getDownloadURL st pora packageName version (some pkg.ownerID)
            = Except.ok (presignedURL (buildObjectNameS packageName version))
        ∧ (∀ u : Nat, u ≠ pkg.ownerID →
            (downloadPackageVersion st dora packageName version (some u)
                ipAddress userAgent).1 = Except.error "access denied to private package")
        ∧ (downloadPackageVersion st dora packageName version none
              ipAddress userAgent).1 = Except.error "access denied to private package"
        ∧ (∀ u : Nat, u ≠ pkg.ownerID →
            getDownloadURL st pora packageName version (some u)
              = Except.error "access denied to private package")
        ∧ getDownloadURL st pora packageName version none
            = Except.error "access denied to private package"))
    ∧ (pkg.isPrivate = false →
        ∀ uopt : Option Nat,
          (downloadPackageVersion st dora packageName version uopt
              ipAddress userAgent).1 = Except.ok (content, row)
          ∧ getDownloadURL st pora packageName version uopt
              = Except.ok (presignedURL (buildObjectNameS packageName version))) := by
  have hsok' : ¬ dora.storageOk = false := by rw [hsok]; decide
  constructor
  · intro hpriv
    refine ⟨?_, ?_, ?_, ?_, ?_, ?_⟩
    · simp only [downloadPackageVersion, hfind, hver, hpriv, Option.elim,
        bne_self_eq_false, Bool.and_false, Bool.false_eq_true, if_false,
        if_neg hsok', hblob]
    · simp only [getDownloadURL, hfind, hver, hpriv, Option.elim,
        bne_self_eq_false, Bool.and_false, Bool.false_eq_true, if_false, hpok, if_true]
    · intro u hu
      have hbne : (pkg.ownerID != u) = true := bne_iff_ne.mpr (Ne.symm hu)
      simp only [downloadPackageVersion, hfind, hver, hpriv, Option.elim, hbne,
        Bool.and_true, if_true]
    · simp only [downloadPackageVersion, hfind, hver, hpriv, Option.elim,
        Bool.and_true, if_true]
    · intro u hu
      have hbne : (pkg.ownerID != u) = true := bne_iff_ne.mpr (Ne.symm hu)
      simp only [getDownloadURL, hfind, hver, hpriv, Option.elim, hbne,
        Bool.and_true, if_true]
    · simp only [getDownloadURL, hfind, hver, hpriv, Option.elim,
        Bool.and_true, if_true]
  · intro hpub uopt
    constructor
    · simp only [downloadPackageVersion, hfind, hver, hpub, Bool.false_and,
        Bool.false_eq_true, if_false, if_neg hsok', hblob]
    · simp only [getDownloadURL, hfind, hver, hpub, Bool.false_and,
        Bool.false_eq_true, if_false, hpok, if_true]

/-- A private package owned by user 7. -/
def exPkgPriv : PackageRow :=
  { id := 1, name := "priv", description := "", author := "", homepage := ""
    repository := "", license := "", keywords := "", isPrivate := true, ownerID := 7 }

/-- A stored version of the private package. -/
def exVerPriv : PackageVersionRow :=
  { id := 10, packageID := 1, version := "1.0.0", description := "", changelog := ""
    dependencies := "", fileSize := 2, fileHash := "2", minioPath := "packages/priv/1.0.0"
    downloadCount := 0, isPrerelease := false, uploaderID := 7 }

/-- Private-package state with the blob present. -/
def exStPriv : RegistryState :=
  { db := { packages := [exPkgPriv], versions := [exVerPriv], downloads := []
            nextPackageID := 2, nextVersionID := 11 }
    store := { objects := [(buildObjectNameS "priv" "1.0.0", [4, 2])]
               written := [buildObjectNameS "priv" "1.0.0"] } }

/-- All-success download oracle. -/
def exDlOk : DownloadOracle :=
  { storageOk := true, recordInsertOk := true, countUpdateOk := true }

/-- Successful presign oracle. -/
def exPsOk : PresignOracle :=
  { presignOk := true }

theorem c3_private_package_visibility_witness :
    (downloadPackageVersion exStPriv exDlOk "priv" "1.0.0" (some 7) "ip" "ua").1
      = Except.ok ([4, 2], exVerPriv)
    ∧ (downloadPackageVersion exStPriv exDlOk "priv" "1.0.0" none "ip" "ua").1
      = Except.error "access denied to private package"
    ∧ getDownloadURL exStPriv exPsOk "priv" "1.0.0" (some 9)
      = Except.error "access denied to private package" := by
  have h := c3_private_package_visibility exStPriv exDlOk exPsOk
    "priv" "1.0.0" "ip" "ua" exPkgPriv exVerPriv [4, 2]
    (by decide) (by decide) (by decide) rfl rfl
  have hp := h.1 rfl
  exact ⟨hp.1, hp.2.2.2.1, hp.2.2.2.2.1 9 (by decide)⟩

/-! ## C2: upload/download round trip with hash agreement -/

/-- The version row the ok-branch of `uploadPackageVersion` inserts. -/
def mkUploadedRow (co : Codec) (st : RegistryState) (packageName : String)
    (req : CreatePackageVersionRequest) (fileBytes : List Nat) (uploaderID : Nat)
    (pkg : PackageRow) : PackageVersionRow :=
  { id := st.db.nextVersionID
    packageID := pkg.id
    version := req.version
    description := req.description
    changelog := req.changelog
    dependencies := if req.dependencies ≠ [] then co.jsonStringMap req.dependencies else ""
    fileSize := Int.ofNat fileBytes.length
    fileHash := co.sha256hex fileBytes
    minioPath := "packages/" ++ packageName ++ "/" ++ req.version
    downloadCount := 0
    isPrerelease := req.isPrerelease
    uploaderID := uploaderID }

/-- The state the ok-branch of `uploadPackageVersion` produces. -/
def mkUploadedState (co : Codec) (st : RegistryState) (packageName : String)
    (req : CreatePackageVersionRequest) (fileBytes : List Nat) (uploaderID : Nat)
    (pkg : PackageRow) : RegistryState :=
  { db := { st.db with
      versions := st.db.versions ++
        [mkUploadedRow co st packageName req fileBytes uploaderID pkg]
      nextVersionID := st.db.nextVersionID + 1 }
    store := putObject st.store (buildObjectNameS packageName req.version) fileBytes }

/-- A download by the owner of a stored version with a present blob and a
healthy store returns the blob content and the row. -/
theorem download_ok (st : RegistryState) (dora : DownloadOracle)
    (n v ipAddress userAgent : String) (pkg : PackageRow) (row : PackageVersionRow)
    (content : List Nat) (uid : Nat)
    (hfind : findPackageByName st.db n = some pkg)
    (hver : findVersionRow st.db pkg.id v = some row)
    (hblob : getObject st.store (buildObjectNameS n v) = some content)
    (hsok : dora.storageOk = true)
    (howner : pkg.ownerID = uid) :
    (downloadPackageVersion st dora n v (some uid) ipAddress userAgent).1
      = Except.ok (content, row) := by
  have hsok' : ¬ dora.storageOk = false := by rw [hsok]; decide
  have hbne : (pkg.ownerID != uid) = false := by
    rw [howner]
    exact bne_self_eq_false uid
  simp only [downloadPackageVersion, hfind, hver, Option.elim, hbne,
    Bool.and_false, Bool.false_eq_true, if_false, if_neg hsok', hblob]

/-- C2: a successful upload of `fileBytes` records size `|fileBytes|` and
hash `sha256(fileBytes)` on the inserted row, and an immediately following
download of the same (package, version) by the uploader returns exactly
those bytes, whose recomputed hash and length agree with the recorded
`FileHash` and `FileSize`. -/
theorem c2_upload_download_roundtrip (co : Codec) (st : RegistryState)
    (ora : UploadOracle) (dora : DownloadOracle)
    (packageName ipAddress userAgent : String)
    (req : CreatePackageVersionRequest) (fileBytes : List Nat) (uploaderID : Nat)
    (pkg : PackageRow)
    (hput : ora.blobPutOk = true) (hins : ora.insertOk = true)
    (hsok : dora.storageOk = true)
    (hfind : findPackageByName st.db packageName = some pkg)
    (howner : pkg.ownerID = uploaderID)
    (hnew : findVersionRow st.db pkg.id req.version = none) :
    ∃ row : PackageVersionRow,
      (uploadPackageVersion co st ora packageName req fileBytes uploaderID).1
          = Except.ok row
      ∧ row.fileSize = Int.ofNat fileBytes.length
      ∧ row.fileHash = co.sha256hex fileBytes
      ∧ ∃ c : List Nat, ∃ r : PackageVersionRow,
          (downloadPackageVersion
              (uploadPackageVersion co st ora packageName req fileBytes uploaderID).2.1
              dora packageName req.version (some uploaderID) ipAddress userAgent).1
            = Except.ok (c, r)
          ∧ c = fileBytes
          ∧ c.length = fileBytes.length
          ∧ r.fileHash = co.sha256hex c
          ∧ r.fileSize = Int.ofNat c.length
          ∧ r = row := by
  have hno : ¬ pkg.ownerID ≠ uploaderID := fun hcon => hcon howner
  have hput' : ¬ ora.blobPutOk = false := by rw [hput]; decide
  have hup : uploadPackageVersion co st ora packageName req fileBytes uploaderID
      = (Except.ok (mkUploadedRow co st packageName req fileBytes uploaderID pkg),
         mkUploadedState co st packageName req fileBytes uploaderID pkg,
         [StorageEvent.blobPutOk (buildObjectNameS packageName req.version),
          StorageEvent.dbInsertVersionOk]) := by
    simp only [uploadPackageVersion, hfind, if_neg hno, hnew, if_neg hput', hins, if_true,
      mkUploadedRow, mkUploadedState, putObject]
  rw [hup]
  refine ⟨mkUploadedRow co st packageName req fileBytes uploaderID pkg, rfl, rfl, rfl,
    fileBytes, mkUploadedRow co st packageName req fileBytes uploaderID pkg,
    ?_, rfl, rfl, rfl, rfl, rfl⟩
  have hfindL : findPackageByName
      (mkUploadedState co st packageName req fileBytes uploaderID pkg).db packageName
      = some pkg := hfind
  have hverL : findVersionRow
      (mkUploadedState co st packageName req fileBytes uploaderID pkg).db pkg.id req.version
      = some (mkUploadedRow co st packageName req fileBytes uploaderID pkg) := by
    show (st.db.versions ++ [mkUploadedRow co st packageName req fileBytes uploaderID pkg]).find?
        (fun r => r.packageID == pkg.id && r.version == req.version)
      = some (mkUploadedRow co st packageName req fileBytes uploaderID pkg)
    rw [List.find?_append]
    have hn : st.db.versions.find?
        (fun r => r.packageID == pkg.id && r.version == req.version) = none := hnew
    rw [hn]
    simp [List.find?_cons, mkUploadedRow]
  have hblobL : getObject
      (mkUploadedState co st packageName req fileBytes uploaderID pkg).store
      (buildObjectNameS packageName req.version) = some fileBytes := by
    show List.lookup (buildObjectNameS packageName req.version)
        ((buildObjectNameS packageName req.version, fileBytes) :: st.store.objects)
      = some fileBytes
    simp [List.lookup]
  exact download_ok _ dora packageName req.version ipAddress userAgent pkg _ fileBytes
    uploaderID hfindL hverL hblobL hsok howner

theorem c2_upload_download_roundtrip_witness :
    ∃ row : PackageVersionRow,
      (uploadPackageVersion exCodec exSt exUpOk "demo" exReq [5, 6, 7] 7).1
          = Except.ok row
      ∧ row.fileSize = Int.ofNat ([5, 6, 7] : List Nat).length
      ∧ row.fileHash = exCodec.sha256hex [5, 6, 7]
      ∧ ∃ c : List Nat, ∃ r : PackageVersionRow,
          (downloadPackageVersion
              (uploadPackageVersion exCodec exSt exUpOk "demo" exReq [5, 6, 7] 7).2.1
              exDlOk "demo" exReq.version (some 7) "ip" "ua").1
            = Except.ok (c, r)
          ∧ c = [5, 6, 7]
          ∧ c.length = ([5, 6, 7] : List Nat).length
          ∧ r.fileHash = exCodec.sha256hex c
          ∧ r.fileSize = Int.ofNat c.length
          ∧ r = row :=
  c2_upload_download_roundtrip exCodec exSt exUpOk exDlOk "demo" "ip" "ua" exReq
    [5, 6, 7] 7 exPkg rfl rfl rfl (by decide) (by decide) (by decide)

/-! ## C8: partial update semantics of UpdatePackage -/

/-- C8: for an owner-issued `UpdatePackage`, every omitted field (empty
string, empty keyword list, absent `is_private` pointer) leaves the stored
value unchanged, every provided field is applied, and since `is_private` is
optionally encoded (`*bool`), an explicit `false` is applied rather than
ignored. -/
theorem c8_partial_update (co : Codec) (st : RegistryState) (packageName : String)
    (req : UpdatePackageRequest) (userID : Nat) (pkg : PackageRow)
    (hfind : findPackageByName st.db packageName = some pkg)
    (howner : pkg.ownerID = userID) :
    ∃ pkg', (updatePackage co st packageName req userID).1 = Except.ok pkg'
      ∧ pkg'.id = pkg.id
      ∧ pkg'.name = pkg.name
      ∧ pkg'.ownerID = pkg.ownerID
      ∧ pkg'.description = (if req.description ≠ "" then req.description else pkg.description)
      ∧ pkg'.author = (if req.author ≠ "" then req.author else pkg.author)
      ∧ pkg'.homepage = (if req.homepage ≠ "" then req.homepage else pkg.homepage)
      ∧ pkg'.repository = (if req.repository ≠ "" then req.repository else pkg.repository)
      ∧ pkg'.license = (if req.license ≠ "" then req.license else pkg.license)
      ∧ pkg'.keywords
          = (if req.keywords ≠ [] then co.jsonStringList req.keywords else pkg.keywords)
      ∧ pkg'.isPrivate = req.isPrivate.getD pkg.isPrivate
      ∧ (req.isPrivate = some false → pkg'.isPrivate = false)
      ∧ (req.isPrivate = none → pkg'.isPrivate = pkg.isPrivate)
      ∧ pkg' ∈ (updatePackage co st packageName req userID).2.db.packages := by
  have hno : ¬ pkg.ownerID ≠ userID := fun hcon => hcon howner
  have hupd : updatePackage co st packageName req userID
      = (Except.ok (applyPackageUpdates co pkg req),
         { st with db := { st.db with
             packages := st.db.packages.map fun p =>
               if p.id = pkg.id then applyPackageUpdates co pkg req else p } }) := by
    simp only [updatePackage, hfind, if_neg hno]
  rw [hupd]
  refine ⟨applyPackageUpdates co pkg req, rfl, rfl, rfl, rfl, rfl, rfl, rfl, rfl, rfl, rfl,
    ?_, ?_, ?_, ?_⟩
  · cases hip : req.isPrivate with
    | none => simp [applyPackageUpdates, hip]
    | some b => simp [applyPackageUpdates, hip]
  · intro h
    simp [applyPackageUpdates, h]
  · intro h
    simp [applyPackageUpdates, h]
  · have hfind' : st.db.packages.find? (fun p => p.name == packageName) = some pkg := hfind
    have hmem : pkg ∈ st.db.packages := List.mem_of_find?_eq_some hfind'
    have h2 := List.mem_map_of_mem
      (fun p => if p.id = pkg.id then applyPackageUpdates co pkg req else p) hmem
    simpa using h2

/-- A partial-update request: new description, explicit `is_private = false`,
everything else omitted. -/
def exUpdReq : UpdatePackageRequest :=
  { description := "newdesc", author := "", homepage := "", repository := ""
    license := "", keywords := [], isPrivate := some false }

theorem c8_partial_update_witness :
    ∃ pkg', (updatePackage exCodec exStPriv "priv" exUpdReq 7).1 = Except.ok pkg'
      ∧ pkg'.isPrivate = false
      ∧ pkg'.description = "newdesc"
      ∧ pkg'.author = exPkgPriv.author := by
  obtain ⟨pkg', h1, _, _, _, hdesc, hauth, _, _, _, _, _, hf, _, _⟩ :=
    c8_partial_update exCodec exStPriv "priv" exUpdReq 7 exPkgPriv (by decide) (by decide)
  refine ⟨pkg', h1, hf rfl, ?_, ?_⟩
  · rw [hdesc]
    decide
  · rw [hauth]
    decide

/-! ## C6: DeletePackage — transaction content and blob-delete ordering -/

/-- Recognize a blob-delete attempt in a trace. -/
def isBlobDeleteEvent : StorageEvent → Bool
  | StorageEvent.blobDeleteAttempt _ => true
  | _ => false

/-- The claim's ordering: scanning from the start, no blob-delete attempt
occurs before the commit event. -/
def blobDeletesAfterCommit : List StorageEvent → Bool
  | [] => true
  | StorageEvent.txCommit :: _ => true
  | StorageEvent.blobDeleteAttempt _ :: _ => false
  | _ :: rest => blobDeletesAfterCommit rest

/-- The code's actual ordering: no blob-delete attempt occurs after the
commit event (every blob delete precedes the commit). -/
def noBlobDeleteAfterCommit : List StorageEvent → Bool
  | [] => true
  | StorageEvent.txCommit :: rest => rest.all fun e => !(isBlobDeleteEvent e)
  | _ :: rest => noBlobDeleteAfterCommit rest

/-- All-success oracle for `DeletePackage`. -/
def exDelOra : DeletePackageOracle :=
  { loadOk := true, blobDeleteOk := fun _ => true, deleteDownloadsOk := true
    deleteVersionsOk := true, deletePackageOk := true, commitOk := true, commitErr := "" }

/-- C6 counterexample: on a successful owner deletion of a package with one
version, the emitted effect trace performs the blob-delete attempt before
the metadata deletes and before the commit, so the claim that the blob
delete happens after the commit is false on the code. -/
theorem c6_counterexample :
    (deletePackage exSt2 exDelOra "demo" 7).1 = Except.ok ()
    ∧ (deletePackage exSt2 exDelOra "demo" 7).2.2
        = [StorageEvent.txBegin, StorageEvent.dbLoadVersions,
           StorageEvent.blobDeleteAttempt (buildObjectNameS "demo" "1.0.0"),
           StorageEvent.dbDeleteDownloads, StorageEvent.dbDeleteVersions,
           StorageEvent.dbDeletePackage, StorageEvent.txCommit]
    ∧ (deletePackage exSt2 exDelOra "demo" 7).2.2.any isBlobDeleteEvent = true
    ∧ blobDeletesAfterCommit (deletePackage exSt2 exDelOra "demo" 7).2.2 = false := by
  exact ⟨rfl, by decide, by decide, by decide⟩

theorem noBlobDeleteAfterCommit_deleteTail (ks : List String) :
    noBlobDeleteAfterCommit
      (ks.map StorageEvent.blobDeleteAttempt
        ++ [StorageEvent.dbDeleteDownloads, StorageEvent.dbDeleteVersions,
            StorageEvent.dbDeletePackage, StorageEvent.txCommit]) = true := by
  induction ks with
  | nil => rfl
  | cons k ks ih => exact ih

theorem filter_isBlobDelete_map (ks : List String) :
    (ks.map StorageEvent.blobDeleteAttempt).filter isBlobDeleteEvent
      = ks.map StorageEvent.blobDeleteAttempt := by
  induction ks with
  | nil => rfl
  | cons k ks ih => simp [List.filter_cons, isBlobDeleteEvent, ih]

/-- C6 (amended): an owner deletion of an existing package deletes all
download rows referencing its versions, all version rows, and the package
row within one committed metadata transaction; the best-effort blob-delete
attempts (exactly one per version) happen after loading the versions but
BEFORE the metadata deletes and the commit, and blob-delete failures (the
oracle's `blobDeleteOk` is unconstrained here) neither abort the deletion
nor roll back the metadata. -/
theorem c6_delete_package_amended (st : RegistryState) (ora : DeletePackageOracle)
    (packageName : String) (userID : Nat) (pkg : PackageRow)
    (hfind : findPackageByName st.db packageName = some pkg)
    (howner : pkg.ownerID = userID)
    (hload : ora.loadOk = true) (hdd : ora.deleteDownloadsOk = true)
    (hdv : ora.deleteVersionsOk = true) (hdp : ora.deletePackageOk = true)
    (hcm : ora.commitOk = true) :
    (deletePackage st ora packageName userID).1 = Except.ok ()
    ∧ (deletePackage st ora packageName userID).2.1.db.versions
        = st.db.versions.filter (fun r => r.packageID != pkg.id)
    ∧ (deletePackage st ora packageName userID).2.1.db.packages
        = st.db.packages.filter (fun p => p.id != pkg.id)
    ∧ (deletePackage st ora packageName userID).2.1.db.downloads
        = st.db.downloads.filter (fun d =>
            !(((st.db.versions.filter fun r => r.packageID == pkg.id).map fun r => r.id).contains
                d.packageVersionID))
    ∧ (deletePackage st ora packageName userID).2.2
        = [StorageEvent.txBegin, StorageEvent.dbLoadVersions]
          ++ ((st.db.versions.filter fun r => r.packageID == pkg.id).map fun r =>
                buildObjectNameS packageName r.version).map StorageEvent.blobDeleteAttempt
          ++ [StorageEvent.dbDeleteDownloads, StorageEvent.dbDeleteVersions,
              StorageEvent.dbDeletePackage, StorageEvent.txCommit]
    ∧ noBlobDeleteAfterCommit (deletePackage st ora packageName userID).2.2 = true
    ∧ ((deletePackage st ora packageName userID).2.2.filter isBlobDeleteEvent).length
        = (st.db.versions.filter fun r => r.packageID == pkg.id).length := by
  have hno : ¬ pkg.ownerID ≠ userID := fun hcon => hcon howner
  have hload' : ¬ ora.loadOk = false := by rw [hload]; decide
  have hdd' : ¬ ora.deleteDownloadsOk = false := by rw [hdd]; decide
  have hdv' : ¬ ora.deleteVersionsOk = false := by rw [hdv]; decide
  have hdp' : ¬ ora.deletePackageOk = false := by rw [hdp]; decide
  have hcm' : ¬ ora.commitOk = false := by rw [hcm]; decide
  have hmain : deletePackage st ora packageName userID
      = (Except.ok (),
         { db := { st.db with
             downloads := st.db.downloads.filter fun d =>
               !(((st.db.versions.filter fun r => r.packageID == pkg.id).map
                   fun r => r.id).contains d.packageVersionID)
             versions := st.db.versions.filter fun r => r.packageID != pkg.id
             packages := st.db.packages.filter fun p => p.id != pkg.id }
           store := ((st.db.versions.filter fun r => r.packageID == pkg.id).map fun r =>
               buildObjectNameS packageName r.version).foldl
             (fun s k => if ora.blobDeleteOk k then deleteObject s k else s) st.store },
         [StorageEvent.txBegin, StorageEvent.dbLoadVersions]
           ++ ((st.db.versions.filter fun r => r.packageID == pkg.id).map fun r =>
                 buildObjectNameS packageName r.version).map StorageEvent.blobDeleteAttempt
           ++ [StorageEvent.dbDeleteDownloads, StorageEvent.dbDeleteVersions,
               StorageEvent.dbDeletePackage, StorageEvent.txCommit]) := by
    simp only [deletePackage, hfind, if_neg hno, if_neg hload', if_neg hdd', if_neg hdv',
      if_neg hdp', if_neg hcm']
  rw [hmain]
  refine ⟨rfl, rfl, rfl, rfl, rfl, ?_, ?_⟩
  · exact noBlobDeleteAfterCommit_deleteTail _
  · simp only [List.filter_append, filter_isBlobDelete_map]
    simp [isBlobDeleteEvent, List.filter_cons]

theorem c6_delete_package_amended_witness :
    (deletePackage exSt2 exDelOra "demo" 7).1 = Except.ok ()
    ∧ (deletePackage exSt2 exDelOra "demo" 7).2.1.db.versions = []
    ∧ (deletePackage exSt2 exDelOra "demo" 7).2.1.db.packages = []
    ∧ noBlobDeleteAfterCommit (deletePackage exSt2 exDelOra "demo" 7).2.2 = true := by
  have h := c6_delete_package_amended exSt2 exDelOra "demo" 7 exPkg
    (by decide) (by decide) rfl rfl rfl rfl rfl
  refine ⟨h.1, ?_, ?_, h.2.2.2.2.2.1⟩
  · rw [h.2.1]
    decide
  · rw [h.2.2.1]
    decide

/-! ## C7: post-creation immutability of version rows -/

/-- The current artifact bytes a version row points at: the blob at the key
derived from its owning package's name and its version label. -/
def versionBlob (st : RegistryState) (r : PackageVersionRow) : Option (List Nat) :=
  match findPackageByID st.db r.packageID with
  | some p => getObject st.store (buildObjectNameS p.name r.version)
  | none => none

/-- Version primary keys are unique and below the auto-increment cursor. -/
def wfVersionIDs (db : Db) : Prop :=
  (db.versions.map fun r => r.id).Nodup ∧ ∀ r ∈ db.versions, r.id < db.nextVersionID

theorem version_eq_of_mem_of_id_eq {l : List PackageVersionRow}
    (hnd : (l.map fun r => r.id).Nodup) {r r' : PackageVersionRow}
    (hr : r ∈ l) (hr' : r' ∈ l) (hid : r.id = r'.id) : r' = r :=
  List.inj_on_of_nodup_map hnd hr' hr hid.symm

/-- What one operation may do to a persisting version row: every field other
than the download counter is unchanged, the counter grows by at most one and
never decreases, and it changes at all only for the direct-download
operation. -/
def frameConcl (op : RegistryOp) (r r' : PackageVersionRow) : Prop :=
  r'.packageID = r.packageID ∧ r'.version = r.version ∧ r'.fileHash = r.fileHash
  ∧ r'.fileSize = r.fileSize ∧ r'.minioPath = r.minioPath
  ∧ r.downloadCount ≤ r'.downloadCount ∧ r'.downloadCount ≤ r.downloadCount + 1
  ∧ (RegistryOp.isDownload op = false → r' = r)

theorem frameConcl_of_eq (op : RegistryOp) (r r' : PackageVersionRow) (h : r' = r) :
    frameConcl op r r' := by
  subst h
  refine ⟨rfl, rfl, rfl, rfl, rfl, le_refl _, ?_, fun _ => rfl⟩
  omega

theorem frameConcl_of_bump (op : RegistryOp) (r r' : PackageVersionRow)
    (hop : RegistryOp.isDownload op = true)
    (h : r' = { r with downloadCount := r.downloadCount + 1 }) : frameConcl op r r' := by
  subst h
  refine ⟨rfl, rfl, rfl, rfl, rfl, ?_, ?_, ?_⟩
  · change r.downloadCount ≤ r.downloadCount + 1
    omega
  · change r.downloadCount + 1 ≤ r.downloadCount + 1
    omega
  · intro hfalse
    rw [hop] at hfalse
    cases hfalse

theorem createPackage_versions (co : Codec) (st : RegistryState) (ora : CreateOracle)
    (req : CreatePackageRequest) (oid : Nat) :
    (createPackage co st ora req oid).2.db.versions = st.db.versions := by
  unfold createPackage
  split
  · rfl
  · split
    · rfl
    · rfl

theorem updatePackage_versions (co : Codec) (st : RegistryState) (n : String)
    (req : UpdatePackageRequest) (uid : Nat) :
    (updatePackage co st n req uid).2.db.versions = st.db.versions := by
  unfold updatePackage
  split
  · rfl
  · split
    · rfl
    · rfl

theorem deletePackage_versions_subset (st : RegistryState) (ora : DeletePackageOracle)
    (n : String) (uid : Nat) (x : PackageVersionRow)
    (hx : x ∈ (deletePackage st ora n uid).2.1.db.versions) : x ∈ st.db.versions := by
  unfold deletePackage at hx
  repeat' split at hx
  all_goals first
    | exact hx
    | exact (List.mem_filter.mp hx).1

theorem deletePackageVersion_versions_subset (st : RegistryState)
    (ora : DeleteVersionOracle) (n v : String) (uid : Nat) (x : PackageVersionRow)
    (hx : x ∈ (deletePackageVersion st ora n v uid).2.1.db.versions) :
    x ∈ st.db.versions := by
  unfold deletePackageVersion at hx
  repeat' split at hx
  all_goals first
    | exact hx
    | exact (List.mem_filter.mp hx).1

theorem uploadPackageVersion_versions_cases (co : Codec) (st : RegistryState)
    (ora : UploadOracle) (n : String) (req : CreatePackageVersionRequest)
    (bs : List Nat) (uid : Nat) (x : PackageVersionRow)
    (hx : x ∈ (uploadPackageVersion co st ora n req bs uid).2.1.db.versions) :
    x ∈ st.db.versions ∨ x.id = st.db.nextVersionID := by
  unfold uploadPackageVersion at hx
  repeat' split at hx
  all_goals try exact Or.inl hx
  all_goals
    rcases List.mem_append.mp hx with h | h
    · exact Or.inl h
    · right
      rw [List.mem_singleton.mp h]

theorem downloadPackageVersion_versions_cases (st : RegistryState)
    (ora : DownloadOracle) (n v : String) (uo : Option Nat) (ipAddress userAgent : String) :
    (downloadPackageVersion st ora n v uo ipAddress userAgent).2.db.versions
        = st.db.versions
    ∨ ∃ t : Nat,
        (downloadPackageVersion st ora n v uo ipAddress userAgent).2.db.versions
          = st.db.versions.map fun x =>
              if x.id = t then { x with downloadCount := x.downloadCount + 1 } else x := by
  unfold downloadPackageVersion
  cases hf : findPackageByName st.db n with
  | none =>
    simp [hf]
  | some pkg =>
    simp only [hf]
    cases hv : findVersionRow st.db pkg.id v with
    | none =>
      simp [hv]
    | some row =>
      simp only [hv]
      by_cases hpriv : (pkg.isPrivate && uo.elim true fun uid => pkg.ownerID != uid) = true
      · rw [if_pos hpriv]
        exact Or.inl rfl
      · rw [if_neg hpriv]
        by_cases hso : ora.storageOk = false
        · rw [if_pos hso]
          exact Or.inl rfl
        · rw [if_neg hso]
          cases hg : getObject st.store (buildObjectNameS n v) with
          | none =>
            simp [hg]
          | some content =>
            simp only [hg]
            by_cases hc : ora.countUpdateOk
            · refine Or.inr ⟨row.id, ?_⟩
              by_cases hr : ora.recordInsertOk <;> simp [hc, hr]
            · refine Or.inl ?_
              by_cases hr : ora.recordInsertOk <;> simp [hc, hr]

/-- C7 (amended): once created, a persisting version row's package linkage,
version label, FileHash, FileSize and storage path are mutated by no service
operation; the only field that changes post-creation is the download
counter, which never decreases, grows by at most 1 per operation, changes
only on the direct-download path, and is incremented by exactly 1 on a
successful direct download whose accounting update succeeds.  (Artifact
BYTES are excluded: the sanitization key collision of §9 lets an upload to a
different package overwrite the blob — see the counterexample.) -/
theorem c7_version_immutability_amended (co : Codec) :
    (∀ (op : RegistryOp) (st : RegistryState), wfVersionIDs st.db →
      ∀ r ∈ st.db.versions, ∀ r' ∈ (runOp co st op).db.versions,
        r.id = r'.id → frameConcl op r r')
    ∧ (∀ (st : RegistryState) (ora : DownloadOracle)
        (n v ipAddress userAgent : String) (uo : Option Nat)
        (c : List Nat) (row : PackageVersionRow),
        (downloadPackageVersion st ora n v uo ipAddress userAgent).1
            = Except.ok (c, row) →
        ora.countUpdateOk = true →
        (downloadPackageVersion st ora n v uo ipAddress userAgent).2.db.versions
          = st.db.versions.map fun x =>
              if x.id = row.id then { x with downloadCount := x.downloadCount + 1 }
              else x) := by
  constructor
  · intro op st hwf r hr r' hr' hid
    cases op with
    | create ora req oid =>
      have hr2 : r' ∈ (createPackage co st ora req oid).2.db.versions := hr'
      rw [createPackage_versions co st ora req oid] at hr2
      exact frameConcl_of_eq _ _ _ (version_eq_of_mem_of_id_eq hwf.1 hr hr2 hid)
    | update n req uid =>
      have hr2 : r' ∈ (updatePackage co st n req uid).2.db.versions := hr'
      rw [updatePackage_versions co st n req uid] at hr2
      exact frameConcl_of_eq _ _ _ (version_eq_of_mem_of_id_eq hwf.1 hr hr2 hid)
    | deletePkg ora n uid =>
      have hr2 : r' ∈ st.db.versions :=
        deletePackage_versions_subset st ora n uid r' hr'
      exact frameConcl_of_eq _ _ _ (version_eq_of_mem_of_id_eq hwf.1 hr hr2 hid)
    | deleteVer ora n v uid =>
      have hr2 : r' ∈ st.db.versions :=
        deletePackageVersion_versions_subset st ora n v uid r' hr'
      exact frameConcl_of_eq _ _ _ (version_eq_of_mem_of_id_eq hwf.1 hr hr2 hid)
    | upload ora n req bs uid =>
      rcases uploadPackageVersion_versions_cases co st ora n req bs uid r' hr'
        with hx | hx
      · exact frameConcl_of_eq _ _ _ (version_eq_of_mem_of_id_eq hwf.1 hr hx hid)
      · have hlt := hwf.2 r hr
        rw [hid, hx] at hlt
        exact absurd hlt (lt_irrefl _)
    | download ora n v uo ipa ua =>
      rcases downloadPackageVersion_versions_cases st ora n v uo ipa ua
        with hv | ⟨t, hv⟩
      · have hr2 : r' ∈ (downloadPackageVersion st ora n v uo ipa ua).2.db.versions := hr'
        rw [hv] at hr2
        exact frameConcl_of_eq _ _ _ (version_eq_of_mem_of_id_eq hwf.1 hr hr2 hid)
      · have hr2 : r' ∈ (downloadPackageVersion st ora n v uo ipa ua).2.db.versions := hr'
        rw [hv] at hr2
        rcases List.mem_map.mp hr2 with ⟨x, hxmem, hfx⟩
        have hxid : x.id = r'.id := by
          rw [← hfx]
          by_cases hxi : x.id = t <;> simp [hxi]
        have hxr : x = r :=
          version_eq_of_mem_of_id_eq hwf.1 hr hxmem (hid.trans hxid.symm)
        rw [hxr] at hfx
        by_cases hrt : r.id = t
        · refine frameConcl_of_bump _ _ _ rfl ?_
          rw [← hfx, if_pos hrt]
        · refine frameConcl_of_eq _ _ _ ?_
          rw [← hfx, if_neg hrt]
  · intro st ora n v ipa ua uo c row hok hc
    unfold downloadPackageVersion at hok ⊢
    cases hf : findPackageByName st.db n with
    | none =>
      simp only [hf] at hok
      simp at hok
    | some pkg =>
      simp only [hf] at hok ⊢
      cases hv : findVersionRow st.db pkg.id v with
      | none =>
        simp only [hv] at hok
        simp at hok
      | some row₀ =>
        simp only [hv] at hok ⊢
        by_cases hpriv : (pkg.isPrivate && uo.elim true fun uid => pkg.ownerID != uid) = true
        · rw [if_pos hpriv] at hok
          simp at hok
        · rw [if_neg hpriv] at hok ⊢
          by_cases hso : ora.storageOk = false
          · rw [if_pos hso] at hok
            simp at hok
          · rw [if_neg hso] at hok ⊢
            cases hg : getObject st.store (buildObjectNameS n v) with
            | none =>
              simp only [hg] at hok
              simp at hok
            | some content =>
              simp only [hg] at hok ⊢
              have hinj := hok
              simp at hinj
              obtain ⟨hceq, hrow⟩ := hinj
              by_cases hr : ora.recordInsertOk <;> simp [hc, hr, hrow]

/-- Package named `a/b` (slashes are legal in names; only the object key is
sanitized). -/
def colPkgA : PackageRow :=
  { id := 1, name := "a/b", description := "", author := "", homepage := ""
    repository := "", license := "", keywords := "", isPrivate := false, ownerID := 1 }

/-- Package named `a_b`, distinct from `a/b` but sharing its sanitized key
space. -/
def colPkgB : PackageRow :=
  { id := 2, name := "a_b", description := "", author := "", homepage := ""
    repository := "", license := "", keywords := "", isPrivate := false, ownerID := 1 }

/-- Version 1.0 of package `a/b`, with its blob stored at the sanitized key
`packages/a_b/1.0/a_b-1.0.pkg`. -/
def colVer : PackageVersionRow :=
  { id := 10, packageID := 1, version := "1.0", description := "", changelog := ""
    dependencies := "", fileSize := 3, fileHash := "3", minioPath := "packages/a/b/1.0"
    downloadCount := 0, isPrerelease := false, uploaderID := 1 }

/-- State holding both packages and the stored version of `a/b`. -/
def colSt : RegistryState :=
  { db := { packages := [colPkgA, colPkgB], versions := [colVer], downloads := []
            nextPackageID := 3, nextVersionID := 11 }
    store := { objects := [(buildObjectNameS "a/b" "1.0", [1, 2, 3])]
               written := [buildObjectNameS "a/b" "1.0"] } }

/-- Upload request for version 1.0 (of package `a_b`). -/
def colReq : CreatePackageVersionRequest :=
  { version := "1.0", description := "", changelog := "", dependencies := []
    isPrerelease := false }

/-- The colliding operation: upload version 1.0 of package `a_b`. -/
def colOp : RegistryOp := RegistryOp.upload exUpOk "a_b" colReq [9, 9] 1

/-- C7 counterexample: uploading version 1.0 of package `a_b` succeeds (the
pre-insert check is per package), yet it overwrites the blob at the shared
sanitized key, so the persisting version row of package `a/b` now points at
different artifact bytes: the claim that no operation mutates a created
version's artifact bytes is false on the code. -/
theorem c7_counterexample :
    colVer ∈ colSt.db.versions
    ∧ colVer ∈ (runOp exCodec colSt colOp).db.versions
    ∧ versionBlob colSt colVer = some [1, 2, 3]
    ∧ versionBlob (runOp exCodec colSt colOp) colVer = some [9, 9]
    ∧ versionBlob (runOp exCodec colSt colOp) colVer ≠ versionBlob colSt colVer := by
  refine ⟨by decide, by decide, by decide, by decide, by decide⟩

/-- Direct-download operation used by the C7 witness. -/
def c7op : RegistryOp := RegistryOp.download exDlOk "demo" "1.0.0" none "ip" "ua"

theorem c7_version_immutability_amended_witness :
    frameConcl c7op exVer { exVer with downloadCount := exVer.downloadCount + 1 } := by
  have h := c7_version_immutability_amended exCodec
  refine h.1 c7op exSt2 ?_ exVer ?_ { exVer with downloadCount := exVer.downloadCount + 1 }
    ?_ ?_
  · constructor
    · decide
    · decide
  · decide
  · decide
  · decide

end WebService
